import Mathlib

/-!
Verification of the TradeX aggregation/caching/rate-limiting core.

Shallow embedding of `backend/api/aggregator.py`, `backend/api/cache.py`,
`backend/api/rate_limiter.py` and `backend/api/websocket_client.py`.

Python floats are modelled as rationals (`ℚ`); epoch timestamps as
integers (`ℤ`); fallible code returns `Option`/`Except`.
-/

/-- OHLCV bar record (`cache.py`, class `OHLCV`).  `time` is seconds since
the epoch; prices and volume are modelled as rationals. -/
structure Bar where
  time : ℤ
  «open» : ℚ
  high : ℚ
  low : ℚ
  close : ℚ
  volume : ℚ
deriving DecidableEq, Repr

/-- Embeds `TimeframeAggregator._aggregate_bars` (aggregator.py lines 134-159):
combine a non-empty list of bars into one bar; the `ValueError` raised on an
empty list is modelled as `none`.  The historical batch path
(`aggregate_historical_1m_to_timeframe`, `_aggregate_to_daily`,
`_aggregate_to_weekly`) inlines the identical `OHLCV(...)` construction, so
this single definition embeds all of those combine sites. -/
def aggregate_bars : List Bar → Option Bar
  | [] => none
  | b :: bs =>
    some { time := b.time
           «open» := b.«open»
           high := (bs.map Bar.high).foldl max b.high
           low := (bs.map Bar.low).foldl min b.low
           close := (bs.getLastD b).close
           volume := ((b :: bs).map Bar.volume).sum }

section FoldExtrema

variable {α : Type} [LinearOrder α]

theorem le_foldl_max (l : List α) (a : α) : a ≤ l.foldl max a := by
  induction l generalizing a with
  | nil => exact le_refl a
  | cons x xs ih => exact le_trans (le_max_left a x) (ih (max a x))

theorem mem_le_foldl_max (l : List α) (a : α) : ∀ x ∈ l, x ≤ l.foldl max a := by
  induction l generalizing a with
  | nil => intro x hx; cases hx
  | cons y ys ih =>
    intro x hx
    rcases List.mem_cons.mp hx with rfl | hmem
    · exact le_trans (le_max_right a x) (le_foldl_max ys (max a x))
    · exact ih (max a y) x hmem

theorem foldl_max_mem (l : List α) (a : α) : l.foldl max a = a ∨ l.foldl max a ∈ l := by
  induction l generalizing a with
  | nil => exact Or.inl rfl
  | cons x xs ih =>
    have h := ih (max a x)
    rcases h with h | h
    · rcases max_choice a x with hm | hm
      · exact Or.inl (by rw [List.foldl_cons, h, hm])
      · exact Or.inr (by rw [List.foldl_cons, h, hm]; exact List.mem_cons_self x xs)
    · exact Or.inr (List.mem_cons_of_mem x h)

theorem foldl_min_le (l : List α) (a : α) : l.foldl min a ≤ a := by
  induction l generalizing a with
  | nil => exact le_refl a
  | cons x xs ih => exact le_trans (ih (min a x)) (min_le_left a x)

theorem foldl_min_le_mem (l : List α) (a : α) : ∀ x ∈ l, l.foldl min a ≤ x := by
  induction l generalizing a with
  | nil => intro x hx; cases hx
  | cons y ys ih =>
    intro x hx
    rcases List.mem_cons.mp hx with rfl | hmem
    · exact le_trans (foldl_min_le ys (min a x)) (min_le_right a x)
    · exact ih (min a y) x hmem

theorem foldl_min_mem (l : List α) (a : α) : l.foldl min a = a ∨ l.foldl min a ∈ l := by
  induction l generalizing a with
  | nil => exact Or.inl rfl
  | cons x xs ih =>
    have h := ih (min a x)
    rcases h with h | h
    · rcases min_choice a x with hm | hm
      · exact Or.inl (by rw [List.foldl_cons, h, hm])
      · exact Or.inr (by rw [List.foldl_cons, h, hm]; exact List.mem_cons_self x xs)
    · exact Or.inr (List.mem_cons_of_mem x h)

end FoldExtrema

/-- C1: for every non-empty bar sequence, the combine operation returns a bar
whose `time` and `open` come from the first bar, whose `high` is the maximum
of all highs, whose `low` is the minimum of all lows, whose `close` is the
last bar's close, and whose `volume` is the sum of all volumes; combining the
empty sequence fails (raises, modelled as `none`). -/
theorem C1_aggregate_bars_combine_rule (bars : List Bar) (h : bars ≠ []) :
    aggregate_bars [] = none ∧
    ∃ r, aggregate_bars bars = some r ∧
      r.time = (bars.head h).time ∧
      r.«open» = (bars.head h).«open» ∧
      (∀ x ∈ bars, x.high ≤ r.high) ∧
      r.high ∈ bars.map Bar.high ∧
      (∀ x ∈ bars, r.low ≤ x.low) ∧
      r.low ∈ bars.map Bar.low ∧
      r.close = (bars.getLast h).close ∧
      r.volume = (bars.map Bar.volume).sum := by
  refine ⟨rfl, ?_⟩
  match bars, h with
  | b :: bs, _ =>
    refine ⟨_, rfl, rfl, rfl, ?_, ?_, ?_, ?_, ?_, rfl⟩
    · intro x hx
      rcases List.mem_cons.mp hx with rfl | hmem
      · exact le_foldl_max (bs.map Bar.high) x.high
      · exact mem_le_foldl_max (bs.map Bar.high) b.high x.high
          (List.mem_map_of_mem Bar.high hmem)
    · show (bs.map Bar.high).foldl max b.high ∈ (b :: bs).map Bar.high
      rcases foldl_max_mem (bs.map Bar.high) b.high with h1 | h1
      · rw [h1, List.map_cons]; exact List.mem_cons_self _ _
      · rw [List.map_cons]; exact List.mem_cons_of_mem _ h1
    · intro x hx
      rcases List.mem_cons.mp hx with rfl | hmem
      · exact foldl_min_le (bs.map Bar.low) x.low
      · exact foldl_min_le_mem (bs.map Bar.low) b.low x.low
          (List.mem_map_of_mem Bar.low hmem)
    · show (bs.map Bar.low).foldl min b.low ∈ (b :: bs).map Bar.low
      rcases foldl_min_mem (bs.map Bar.low) b.low with h1 | h1
      · rw [h1, List.map_cons]; exact List.mem_cons_self _ _
      · rw [List.map_cons]; exact List.mem_cons_of_mem _ h1
    · show (bs.getLastD b).close = ((b :: bs).getLast _).close
      rw [List.getLast_eq_getLastD]

/-- Witness for C1 at a concrete two-bar input. -/
theorem C1_aggregate_bars_combine_rule_witness :
    ([⟨0, 10, 12, 9, 11, 3⟩, ⟨60, 11, 15, 8, 14, 4⟩] : List Bar) ≠ [] ∧
    (aggregate_bars [] = none ∧
      ∃ r, aggregate_bars [⟨0, 10, 12, 9, 11, 3⟩, ⟨60, 11, 15, 8, 14, 4⟩] = some r ∧
        r.time = ((([⟨0, 10, 12, 9, 11, 3⟩, ⟨60, 11, 15, 8, 14, 4⟩] : List Bar)).head (by decide)).time ∧
        r.«open» = ((([⟨0, 10, 12, 9, 11, 3⟩, ⟨60, 11, 15, 8, 14, 4⟩] : List Bar)).head (by decide)).«open» ∧
        (∀ x ∈ ([⟨0, 10, 12, 9, 11, 3⟩, ⟨60, 11, 15, 8, 14, 4⟩] : List Bar), x.high ≤ r.high) ∧
        r.high ∈ ([⟨0, 10, 12, 9, 11, 3⟩, ⟨60, 11, 15, 8, 14, 4⟩] : List Bar).map Bar.high ∧
        (∀ x ∈ ([⟨0, 10, 12, 9, 11, 3⟩, ⟨60, 11, 15, 8, 14, 4⟩] : List Bar), r.low ≤ x.low) ∧
        r.low ∈ ([⟨0, 10, 12, 9, 11, 3⟩, ⟨60, 11, 15, 8, 14, 4⟩] : List Bar).map Bar.low ∧
        r.close = (([⟨0, 10, 12, 9, 11, 3⟩, ⟨60, 11, 15, 8, 14, 4⟩] : List Bar).getLast (by decide)).close ∧
        r.volume = (([⟨0, 10, 12, 9, 11, 3⟩, ⟨60, 11, 15, 8, 14, 4⟩] : List Bar).map Bar.volume).sum) :=
  ⟨by decide, C1_aggregate_bars_combine_rule _ (by decide)⟩

/-!
Calendar arithmetic.

`datetime.fromtimestamp(t).year / .month / .date()` used by
`_aggregate_monthly`, `_aggregate_to_daily` and `_aggregate_to_weekly` is
modelled by the standard proleptic-Gregorian civil-from-days conversion
(UTC).  All divisions are floor divisions (`Int.fdiv`), matching Python's
`//` semantics.
-/

/-- Day number (days since 1970-01-01) of an epoch-second timestamp. -/
def epochDays (t : ℤ) : ℤ := Int.fdiv t 86400

/-- Civil date `(year, month, day)` from a day number (days since
1970-01-01); Howard Hinnant's `civil_from_days` algorithm. -/
def civilOfDays (z0 : ℤ) : ℤ × ℤ × ℤ :=
  let z := z0 + 719468
  let era := Int.fdiv z 146097
  let doe := z - era * 146097
  let yoe := Int.fdiv (doe - Int.fdiv doe 1460 + Int.fdiv doe 36524 - Int.fdiv doe 146096) 365
  let y := yoe + era * 400
  let doy := doe - (365 * yoe + Int.fdiv yoe 4 - Int.fdiv yoe 100)
  let mp := Int.fdiv (5 * doy + 2) 153
  let d := doy - Int.fdiv (153 * mp + 2) 5 + 1
  let m := mp + (if mp < 10 then 3 else -9)
  (if m ≤ 2 then y + 1 else y, m, d)

/-- Day number of a civil date; Hinnant's `days_from_civil`. -/
def daysOfCivil (y m d : ℤ) : ℤ :=
  let y2 := if m ≤ 2 then y - 1 else y
  let era := Int.fdiv y2 400
  let yoe := y2 - era * 400
  let mp := Int.fmod (m + 9) 12
  let doy := Int.fdiv (153 * mp + 2) 5 + d - 1
  let doe := yoe * 365 + Int.fdiv yoe 4 - Int.fdiv yoe 100 + doy
  era * 146097 + doe

/-- Embeds `datetime.fromtimestamp(t).year`. -/
def yearOf (t : ℤ) : ℤ := (civilOfDays (epochDays t)).1

/-- Embeds `datetime.fromtimestamp(t).month`. -/
def monthOf (t : ℤ) : ℤ := (civilOfDays (epochDays t)).2.1

/-- Embeds `datetime.fromtimestamp(t).date()` as a `(year, month, day)` triple. -/
def dateOf (t : ℤ) : ℤ × ℤ × ℤ := civilOfDays (epochDays t)

/-- Embeds `date.isocalendar()[1]`: the ISO week number, computed as the
Thursday-of-the-week's ordinal position among the Thursdays of its year. -/
def isoWeekOf (t : ℤ) : ℤ :=
  let days := epochDays t
  let wd := Int.fmod (days + 3) 7
  let th := days - wd + 3
  let ty := (civilOfDays th).1
  Int.fdiv (th - daysOfCivil ty 1 1) 7 + 1

/-- The month/year guard of `_aggregate_monthly` (aggregator.py line 182):
`bar_date.month == latest_date.month and bar_date.year == latest_date.year`. -/
def sameMonth (bar latest : Bar) : Bool :=
  monthOf bar.time == monthOf latest.time && yearOf bar.time == yearOf latest.time

/-- Embeds `TimeframeAggregator._aggregate_monthly` (aggregator.py lines 161-193):
scan the daily-bar list backward from the end, collecting bars while their
calendar month and year match the latest bar's, then combine the collected
run in chronological order.  Returns `none` on an empty input. -/
def aggregate_monthly (daily_bars : List Bar) : Option Bar :=
  match daily_bars.getLast? with
  | none => none
  | some latest =>
    let current_month_bars := daily_bars.reverse.takeWhile (fun bar => sameMonth bar latest)
    if current_month_bars.isEmpty then none
    else aggregate_bars current_month_bars.reverse

/-!
Live aggregation engine state.
-/

/-- The last `n` elements of a list (a `collections.deque` of `maxlen = n`
holds exactly these after the list has been appended element by element). -/
def takeLast (n : Nat) (l : List α) : List α := l.drop (l.length - n)

/-- Embeds `deque(maxlen = n).append(b)`: append on the right, evicting from the
left whenever the length would exceed `n`. -/
def pushB (n : Nat) (l : List α) (b : α) : List α :=
  let l2 := l ++ [b]
  if n < l2.length then l2.drop (l2.length - n) else l2

/-- Embeds `TimeframeAggregator` instance state (aggregator.py lines 58-75): one
bounded buffer per timeframe key of `self._buffers` (the `1W`/`1M` buffers
exist but are never appended to) plus the unbounded `self._daily_bars`. -/
structure AggState where
  buf5m : List Bar
  buf15m : List Bar
  buf30m : List Bar
  buf1H : List Bar
  buf4H : List Bar
  buf1D : List Bar
  buf1W : List Bar
  buf1M : List Bar
  dailyBars : List Bar
deriving DecidableEq, Repr

/-- The freshly constructed aggregator: all buffers and the daily-bar list
empty. -/
def initAgg : AggState := ⟨[], [], [], [], [], [], [], [], []⟩

/-- The dictionary returned by `add_1m_bar`: the `1m` entry is always
present, every other timeframe key is present (`some`) or absent (`none`);
present values are the single-element lists the code stores. -/
structure AggResult where
  r1m : List Bar
  r5m : Option (List Bar)
  r15m : Option (List Bar)
  r30m : Option (List Bar)
  r1H : Option (List Bar)
  r4H : Option (List Bar)
  r1D : Option (List Bar)
  r1W : Option (List Bar)
  r1M : Option (List Bar)
deriving DecidableEq, Repr

/-- Embeds `TimeframeAggregator.add_1m_bar` (aggregator.py lines 77-132): append the
bar to every intraday buffer; emit each intraday timeframe whose window is
full as the combine of the whole window; when the daily window is full,
append the combined daily bar to the daily-bar list, emit `1W` as the
combine of the last five daily bars once five exist, and emit `1M` via the
calendar-month aggregation. -/
def add_1m_bar (s : AggState) (bar : Bar) : AggState × AggResult :=
  let buf5 := pushB 5 s.buf5m bar
  let buf15 := pushB 15 s.buf15m bar
  let buf30 := pushB 30 s.buf30m bar
  let buf60 := pushB 60 s.buf1H bar
  let buf240 := pushB 240 s.buf4H bar
  let buf1440 := pushB 1440 s.buf1D bar
  let r5 := if 5 ≤ buf5.length then (aggregate_bars buf5).map (fun x => [x]) else none
  let r15 := if 15 ≤ buf15.length then (aggregate_bars buf15).map (fun x => [x]) else none
  let r30 := if 30 ≤ buf30.length then (aggregate_bars buf30).map (fun x => [x]) else none
  let r60 := if 60 ≤ buf60.length then (aggregate_bars buf60).map (fun x => [x]) else none
  let r240 := if 240 ≤ buf240.length then (aggregate_bars buf240).map (fun x => [x]) else none
  if 1440 ≤ buf1440.length then
    let dailyOpt := aggregate_bars buf1440
    let dailyBars := s.dailyBars ++ dailyOpt.toList
    let r1W :=
      if 5 ≤ dailyBars.length then (aggregate_bars (takeLast 5 dailyBars)).map (fun x => [x])
      else none
    let r1M := (aggregate_monthly dailyBars).map (fun x => [x])
    (⟨buf5, buf15, buf30, buf60, buf240, buf1440, s.buf1W, s.buf1M, dailyBars⟩,
     ⟨[bar], r5, r15, r30, r60, r240, dailyOpt.map (fun x => [x]), r1W, r1M⟩)
  else
    (⟨buf5, buf15, buf30, buf60, buf240, buf1440, s.buf1W, s.buf1M, s.dailyBars⟩,
     ⟨[bar], r5, r15, r30, r60, r240, none, none, none⟩)

/-- Feed a list of 1-minute bars, in order, into the aggregator. -/
def runAgg (s : AggState) (l : List Bar) : AggState :=
  l.foldl (fun s b => (add_1m_bar s b).1) s

theorem takeLast_length (n : Nat) (l : List α) : (takeLast n l).length = min n l.length := by
  simp only [takeLast, List.length_drop]
  omega

theorem pushB_takeLast (n : Nat) (hn : 1 ≤ n) (l : List α) (b : α) :
    pushB n (takeLast n l) b = takeLast n (l ++ [b]) := by
  rcases le_or_lt n l.length with h | h
  · have hlen : (takeLast n l).length = n := by rw [takeLast_length]; omega
    have hcond : n < (takeLast n l ++ [b]).length := by
      simp [hlen]
    have hdrop1 : (takeLast n l ++ [b]).length - n = 1 := by simp [hlen]
    have hL : pushB n (takeLast n l) b = (takeLast n l).drop 1 ++ [b] := by
      unfold pushB
      simp only [hcond, if_pos, hdrop1]
      exact List.drop_append_of_le_length (by omega)
    rw [hL]
    unfold takeLast
    rw [List.drop_drop]
    have h2 : (l ++ [b]).length - n = l.length + 1 - n := by simp
    rw [h2, List.drop_append_of_le_length (by omega)]
    have h3 : l.length - n + 1 = l.length + 1 - n := by omega
    rw [h3]
  · have h0 : l.length - n = 0 := by omega
    have htake : takeLast n l = l := by unfold takeLast; rw [h0, List.drop_zero]
    have hcond : ¬ n < (takeLast n l ++ [b]).length := by
      simp [htake]; omega
    have h1 : (l ++ [b]).length - n = 0 := by simp; omega
    unfold pushB
    rw [if_neg hcond, htake]
    unfold takeLast
    rw [h1, List.drop_zero]

theorem add_1m_bar_fst_bufs (s : AggState) (b : Bar) :
    (add_1m_bar s b).1.buf5m = pushB 5 s.buf5m b ∧
    (add_1m_bar s b).1.buf15m = pushB 15 s.buf15m b ∧
    (add_1m_bar s b).1.buf30m = pushB 30 s.buf30m b ∧
    (add_1m_bar s b).1.buf1H = pushB 60 s.buf1H b ∧
    (add_1m_bar s b).1.buf4H = pushB 240 s.buf4H b ∧
    (add_1m_bar s b).1.buf1D = pushB 1440 s.buf1D b := by
  by_cases hc : 1440 ≤ (pushB 1440 s.buf1D b).length <;>
    simp only [add_1m_bar, hc, if_true, if_false, ite_true, ite_false] <;>
    simp

theorem add_1m_bar_snd_intraday (s : AggState) (b : Bar) :
    (add_1m_bar s b).2.r5m =
      (if 5 ≤ (pushB 5 s.buf5m b).length
       then (aggregate_bars (pushB 5 s.buf5m b)).map (fun x => [x]) else none) ∧
    (add_1m_bar s b).2.r15m =
      (if 15 ≤ (pushB 15 s.buf15m b).length
       then (aggregate_bars (pushB 15 s.buf15m b)).map (fun x => [x]) else none) ∧
    (add_1m_bar s b).2.r30m =
      (if 30 ≤ (pushB 30 s.buf30m b).length
       then (aggregate_bars (pushB 30 s.buf30m b)).map (fun x => [x]) else none) ∧
    (add_1m_bar s b).2.r1H =
      (if 60 ≤ (pushB 60 s.buf1H b).length
       then (aggregate_bars (pushB 60 s.buf1H b)).map (fun x => [x]) else none) ∧
    (add_1m_bar s b).2.r4H =
      (if 240 ≤ (pushB 240 s.buf4H b).length
       then (aggregate_bars (pushB 240 s.buf4H b)).map (fun x => [x]) else none) ∧
    (add_1m_bar s b).2.r1D =
      (if 1440 ≤ (pushB 1440 s.buf1D b).length
       then (aggregate_bars (pushB 1440 s.buf1D b)).map (fun x => [x]) else none) := by
  by_cases hc : 1440 ≤ (pushB 1440 s.buf1D b).length <;>
    simp only [add_1m_bar, hc, if_true, if_false, ite_true, ite_false] <;>
    simp

theorem runAgg_append_singleton (s : AggState) (l : List Bar) (b : Bar) :
    runAgg s (l ++ [b]) = (add_1m_bar (runAgg s l) b).1 := by
  simp [runAgg, List.foldl_append]

theorem runAgg_bufs (l : List Bar) :
    (runAgg initAgg l).buf5m = takeLast 5 l ∧
    (runAgg initAgg l).buf15m = takeLast 15 l ∧
    (runAgg initAgg l).buf30m = takeLast 30 l ∧
    (runAgg initAgg l).buf1H = takeLast 60 l ∧
    (runAgg initAgg l).buf4H = takeLast 240 l ∧
    (runAgg initAgg l).buf1D = takeLast 1440 l := by
  induction l using List.reverseRecOn with
  | nil => exact ⟨rfl, rfl, rfl, rfl, rfl, rfl⟩
  | append_singleton l b ih =>
    obtain ⟨i5, i15, i30, i60, i240, i1440⟩ := ih
    have hf := add_1m_bar_fst_bufs (runAgg initAgg l) b
    rw [runAgg_append_singleton]
    refine ⟨?_, ?_, ?_, ?_, ?_, ?_⟩
    · rw [hf.1, i5, pushB_takeLast 5 (by omega)]
    · rw [hf.2.1, i15, pushB_takeLast 15 (by omega)]
    · rw [hf.2.2.1, i30, pushB_takeLast 30 (by omega)]
    · rw [hf.2.2.2.1, i60, pushB_takeLast 60 (by omega)]
    · rw [hf.2.2.2.2.1, i240, pushB_takeLast 240 (by omega)]
    · rw [hf.2.2.2.2.2, i1440, pushB_takeLast 1440 (by omega)]

theorem takeLast_append_cond_iff (n : Nat) (l : List Bar) (b : Bar) :
    n ≤ (takeLast n (l ++ [b])).length ↔ n ≤ l.length + 1 := by
  rw [takeLast_length]
  simp only [List.length_append, List.length_cons, List.length_nil]
  omega

/-- C2: starting the live engine empty and feeding 1-minute bars in order,
each intraday timeframe (5m, 15m, 30m, 1H, 4H) and the daily timeframe 1D is
emitted on a call exactly when at least N bars have been fed (N = 5, 15, 30,
60, 240, 1440), and the emitted bar is the combine of the last N bars fed —
a bounded sliding window in which, once full, the oldest bar is evicted: on
the call with the 5th bar the 5m output is combine(b1..b5), on the call with
the 6th it is combine(b2..b6). -/
theorem C2_sliding_window_outputs (l : List Bar) (b : Bar) :
    ((add_1m_bar (runAgg initAgg l) b).2.r5m =
      if 5 ≤ l.length + 1
      then (aggregate_bars (takeLast 5 (l ++ [b]))).map (fun x => [x]) else none) ∧
    ((add_1m_bar (runAgg initAgg l) b).2.r15m =
      if 15 ≤ l.length + 1
      then (aggregate_bars (takeLast 15 (l ++ [b]))).map (fun x => [x]) else none) ∧
    ((add_1m_bar (runAgg initAgg l) b).2.r30m =
      if 30 ≤ l.length + 1
      then (aggregate_bars (takeLast 30 (l ++ [b]))).map (fun x => [x]) else none) ∧
    ((add_1m_bar (runAgg initAgg l) b).2.r1H =
      if 60 ≤ l.length + 1
      then (aggregate_bars (takeLast 60 (l ++ [b]))).map (fun x => [x]) else none) ∧
    ((add_1m_bar (runAgg initAgg l) b).2.r4H =
      if 240 ≤ l.length + 1
      then (aggregate_bars (takeLast 240 (l ++ [b]))).map (fun x => [x]) else none) ∧
    ((add_1m_bar (runAgg initAgg l) b).2.r1D =
      if 1440 ≤ l.length + 1
      then (aggregate_bars (takeLast 1440 (l ++ [b]))).map (fun x => [x]) else none) := by
  obtain ⟨i5, i15, i30, i60, i240, i1440⟩ := runAgg_bufs l
  obtain ⟨o5, o15, o30, o60, o240, o1440⟩ := add_1m_bar_snd_intraday (runAgg initAgg l) b
  refine ⟨?_, ?_, ?_, ?_, ?_, ?_⟩
  · rw [o5, i5, pushB_takeLast 5 (by omega)]
    exact if_congr (takeLast_append_cond_iff 5 l b) rfl rfl
  · rw [o15, i15, pushB_takeLast 15 (by omega)]
    exact if_congr (takeLast_append_cond_iff 15 l b) rfl rfl
  · rw [o30, i30, pushB_takeLast 30 (by omega)]
    exact if_congr (takeLast_append_cond_iff 30 l b) rfl rfl
  · rw [o60, i60, pushB_takeLast 60 (by omega)]
    exact if_congr (takeLast_append_cond_iff 60 l b) rfl rfl
  · rw [o240, i240, pushB_takeLast 240 (by omega)]
    exact if_congr (takeLast_append_cond_iff 240 l b) rfl rfl
  · rw [o1440, i1440, pushB_takeLast 1440 (by omega)]
    exact if_congr (takeLast_append_cond_iff 1440 l b) rfl rfl

theorem aggregate_bars_isSome {l : List Bar} (h : l ≠ []) :
    ∃ r, aggregate_bars l = some r := by
  cases l with
  | nil => exact absurd rfl h
  | cons x xs => exact ⟨_, rfl⟩

/-- C4: in the live engine, a call of `add_1m_bar` that completes a daily bar
emits a 1W bar exactly when the daily-bar list now holds at least 5 bars, and
that 1W bar is the combine of the last 5 daily bars (calendar weeks play no
role); a call that completes no daily bar, or leaves fewer than 5 daily bars,
emits no 1W bar. -/
theorem C4_weekly_from_last_five_daily (s : AggState) (b : Bar) :
    (add_1m_bar s b).2.r1W =
      if 5 ≤ s.dailyBars.length + 1
      then (add_1m_bar s b).2.r1D.bind
        (fun dl => (aggregate_bars (takeLast 5 (s.dailyBars ++ dl))).map (fun x => [x]))
      else none := by
  by_cases hc : 1440 ≤ (pushB 1440 s.buf1D b).length
  · have hne : pushB 1440 s.buf1D b ≠ [] := by
      intro h
      rw [h] at hc
      simp at hc
    obtain ⟨d, hd⟩ := aggregate_bars_isSome hne
    simp only [add_1m_bar, hc, ite_true, hd, Option.toList_some]
    simp
  · simp only [add_1m_bar, hc, ite_false, Option.none_bind, if_neg, ite_self]

theorem aggregate_monthly_isSome (l : List Bar) (h : l ≠ []) :
    ∃ r, aggregate_monthly l = some r := by
  obtain ⟨latest, hlast⟩ : ∃ x, l.getLast? = some x := by
    cases hl : l.getLast? with
    | none => exact absurd (List.getLast?_eq_none_iff.mp hl) h
    | some x => exact ⟨x, rfl⟩
  unfold aggregate_monthly
  rw [hlast]
  obtain ⟨ys, hys⟩ : ∃ ys, l.reverse = latest :: ys := by
    have h1 : l.reverse.head? = some latest := by rw [List.head?_reverse, hlast]
    cases hr : l.reverse with
    | nil => rw [hr] at h1; cases h1
    | cons y ys =>
      rw [hr] at h1
      cases h1
      exact ⟨ys, rfl⟩
  rw [hys]
  have hp : sameMonth latest latest = true := by simp [sameMonth]
  have ht : List.takeWhile (fun bar => sameMonth bar latest) (latest :: ys)
      = latest :: List.takeWhile (fun bar => sameMonth bar latest) ys :=
    List.takeWhile_cons_of_pos (by simpa using hp)
  dsimp only
  rw [ht, if_neg (by simp)]
  exact aggregate_bars_isSome (by simp)

theorem all_map_singleton (o : Option Bar) :
    (o.map (fun x => [x])).all (fun x => x.length == 1) = true := by
  cases o <;> rfl

theorem all_ite_map_singleton (c : Prop) [Decidable c] (o : Option Bar) :
    ((if c then o.map (fun x => [x]) else none).all (fun x => x.length == 1)) = true := by
  split
  · exact all_map_singleton o
  · rfl

/-- C10: on every `add_1m_bar` call the 1M entry is present in the result
exactly when the 1D entry is (the daily-bar list is non-empty whenever a
daily bar was just appended, so the monthly aggregation never returns its
insufficient-data result on this path), and every timeframe list held in the
result is a single-element list. -/
theorem C10_monthly_iff_daily_and_singletons (s : AggState) (b : Bar) :
    ((add_1m_bar s b).2.r1M.isSome = (add_1m_bar s b).2.r1D.isSome) ∧
    (add_1m_bar s b).2.r1m.length = 1 ∧
    ((add_1m_bar s b).2.r5m.all (fun x => x.length == 1) = true) ∧
    ((add_1m_bar s b).2.r15m.all (fun x => x.length == 1) = true) ∧
    ((add_1m_bar s b).2.r30m.all (fun x => x.length == 1) = true) ∧
    ((add_1m_bar s b).2.r1H.all (fun x => x.length == 1) = true) ∧
    ((add_1m_bar s b).2.r4H.all (fun x => x.length == 1) = true) ∧
    ((add_1m_bar s b).2.r1D.all (fun x => x.length == 1) = true) ∧
    ((add_1m_bar s b).2.r1W.all (fun x => x.length == 1) = true) ∧
    ((add_1m_bar s b).2.r1M.all (fun x => x.length == 1) = true) := by
  by_cases hc : 1440 ≤ (pushB 1440 s.buf1D b).length
  · have hne : pushB 1440 s.buf1D b ≠ [] := by
      intro h
      rw [h] at hc
      simp at hc
    obtain ⟨d, hd⟩ := aggregate_bars_isSome hne
    obtain ⟨m, hm⟩ := aggregate_monthly_isSome (s.dailyBars ++ [d]) (by simp)
    simp only [add_1m_bar, hc, ite_true, hd, hm, Option.toList_some]
    simp [all_ite_map_singleton, all_map_singleton]
  · simp only [add_1m_bar, hc, ite_false]
    simp [all_ite_map_singleton]

/-- Daily bar dated 2024-01-30 (UTC). -/
def dJan30 : Bar := ⟨1706572800, 1, 1, 1, 1, 1⟩

/-- Daily bar dated 2024-01-31 (UTC). -/
def dJan31 : Bar := ⟨1706659200, 2, 2, 2, 2, 2⟩

/-- Daily bar dated 2024-02-01 (UTC). -/
def dFeb1 : Bar := ⟨1706745600, 3, 3, 3, 3, 3⟩

/-- Daily bar dated 2024-02-02 (UTC). -/
def dFeb2 : Bar := ⟨1706832000, 4, 4, 4, 4, 4⟩

/-- C5: the live engine's monthly output over a non-empty daily-bar list is
the combine of the trailing contiguous run of daily bars whose calendar month
and year match the most recent daily bar's (the bar immediately before that
run, when one exists, mismatches); concretely, after daily bars dated
Jan 30, Jan 31, Feb 1 the monthly output combines only the Feb 1 bar, and
after a further Feb 2 bar it combines Feb 1 and Feb 2. -/
theorem C5_monthly_trailing_month_run (bars : List Bar) (h : bars ≠ []) :
    (∃ pre run, bars = pre ++ run ∧ run ≠ [] ∧
      aggregate_monthly bars = aggregate_bars run ∧
      (∀ x ∈ run, sameMonth x (bars.getLast h) = true) ∧
      (∀ hp : pre ≠ [], sameMonth (pre.getLast hp) (bars.getLast h) = false)) ∧
    aggregate_monthly [dJan30, dJan31, dFeb1] = aggregate_bars [dFeb1] ∧
    aggregate_monthly [dJan30, dJan31, dFeb1, dFeb2] = aggregate_bars [dFeb1, dFeb2] := by
  refine ⟨?_, rfl, rfl⟩
  have hlast : bars.getLast? = some (bars.getLast h) := List.getLast?_eq_getLast bars h
  obtain ⟨ys, hys⟩ : ∃ ys, bars.reverse = bars.getLast h :: ys := by
    have h1 : bars.reverse.head? = some (bars.getLast h) := by
      rw [List.head?_reverse, hlast]
    cases hr : bars.reverse with
    | nil => rw [hr] at h1; cases h1
    | cons y ys =>
      rw [hr] at h1
      cases h1
      exact ⟨ys, rfl⟩
  refine ⟨(bars.reverse.dropWhile (fun bar => sameMonth bar (bars.getLast h))).reverse,
          (bars.reverse.takeWhile (fun bar => sameMonth bar (bars.getLast h))).reverse,
          ?_, ?_, ?_, ?_, ?_⟩
  · rw [← List.reverse_append, List.takeWhile_append_dropWhile, List.reverse_reverse]
  · have hp : sameMonth (bars.getLast h) (bars.getLast h) = true := by simp [sameMonth]
    rw [hys, List.takeWhile_cons_of_pos (by simpa using hp)]
    simp
  · unfold aggregate_monthly
    rw [hlast]
    dsimp only
    rw [if_neg ?hne]
    case hne =>
      rw [hys, List.takeWhile_cons_of_pos (by simp [sameMonth])]
      simp
  · intro x hx
    have hx2 : x ∈ bars.reverse.takeWhile (fun bar => sameMonth bar (bars.getLast h)) :=
      List.mem_reverse.mp hx
    exact List.mem_takeWhile_imp (p := fun bar => sameMonth bar (bars.getLast h)) hx2
  · intro hp
    have hd : bars.reverse.dropWhile (fun bar => sameMonth bar (bars.getLast h)) ≠ [] := by
      intro hnil
      rw [hnil] at hp
      exact hp rfl
    have h1 := List.head_dropWhile_not (fun bar => sameMonth bar (bars.getLast h)) bars.reverse hd
    have h2 : (bars.reverse.dropWhile (fun bar => sameMonth bar (bars.getLast h))).reverse.getLast hp
        = (bars.reverse.dropWhile (fun bar => sameMonth bar (bars.getLast h))).head hd := by
      have h3 := List.getLast?_reverse (bars.reverse.dropWhile (fun bar => sameMonth bar (bars.getLast h)))
      rw [List.getLast?_eq_getLast _ hp, List.head?_eq_head hd] at h3
      exact Option.some.inj h3
    rw [h2]
    exact h1

/-- Witness for C5 at the concrete four-bar daily list. -/
theorem C5_monthly_trailing_month_run_witness :
    ([dJan30, dJan31, dFeb1, dFeb2] : List Bar) ≠ [] ∧
    ((∃ pre run, [dJan30, dJan31, dFeb1, dFeb2] = pre ++ run ∧ run ≠ [] ∧
      aggregate_monthly [dJan30, dJan31, dFeb1, dFeb2] = aggregate_bars run ∧
      (∀ x ∈ run, sameMonth x (([dJan30, dJan31, dFeb1, dFeb2] : List Bar).getLast (by decide)) = true) ∧
      (∀ hp : pre ≠ [], sameMonth (pre.getLast hp)
        (([dJan30, dJan31, dFeb1, dFeb2] : List Bar).getLast (by decide)) = false)) ∧
    aggregate_monthly [dJan30, dJan31, dFeb1] = aggregate_bars [dFeb1] ∧
    aggregate_monthly [dJan30, dJan31, dFeb1, dFeb2] = aggregate_bars [dFeb1, dFeb2]) :=
  ⟨by decide, C5_monthly_trailing_month_run [dJan30, dJan31, dFeb1, dFeb2] (by decide)⟩

/-!
Historical batch aggregation.
-/

/-- The nine timeframe identifiers of `TimeframeAggregator.TIMEFRAMES`. -/
inductive Timeframe
  | t1m | t5m | t15m | t30m | t1H | t4H | t1D | t1W | t1M
deriving DecidableEq, Repr

/-- Embeds `TIMEFRAMES[tf][0]`: bars_in_period; `None` for the variable-length
month. -/
def barsInPeriod : Timeframe → Option Nat
  | .t1m => some 1
  | .t5m => some 5
  | .t15m => some 15
  | .t30m => some 30
  | .t1H => some 60
  | .t4H => some 240
  | .t1D => some 1440
  | .t1W => some 5
  | .t1M => none

/-- Insertion-ordered dict update `groups[k].append(v)` (creating `[v]` for a
fresh key), over an association list. -/
def upsertGroup {κ : Type} [DecidableEq κ] (k : κ) (v : Bar) :
    List (κ × List Bar) → List (κ × List Bar)
  | [] => [(k, [v])]
  | (k2, vs) :: rest =>
    if k2 = k then (k2, vs ++ [v]) :: rest else (k2, vs) :: upsertGroup k v rest

/-- Build the per-key groups in input order, as the Python dict-based
grouping loops do. -/
def groupByKey {κ : Type} [DecidableEq κ] (key : Bar → κ) (bars : List Bar) :
    List (κ × List Bar) :=
  bars.foldl (fun acc b => upsertGroup (key b) b acc) []

/-- Stable insertion into a key-sorted list (used to model Python
`sorted(...)` over the distinct group keys). -/
def insertSorted {κ : Type} (le : κ → κ → Bool) (x : κ × List Bar) :
    List (κ × List Bar) → List (κ × List Bar)
  | [] => [x]
  | y :: ys => if le x.1 y.1 then x :: y :: ys else y :: insertSorted le x ys

/-- Sort the groups by key. -/
def sortGroups {κ : Type} (le : κ → κ → Bool) (l : List (κ × List Bar)) :
    List (κ × List Bar) :=
  l.foldr (insertSorted le) []

/-- Lexicographic order on `(year, month, day)` dates. -/
def dateLe (a b : ℤ × ℤ × ℤ) : Bool :=
  if a.1 < b.1 then true
  else if b.1 < a.1 then false
  else if a.2.1 < b.2.1 then true
  else if b.2.1 < a.2.1 then false
  else decide (a.2.2 ≤ b.2.2)

/-- Lexicographic order on `(year, iso-week)` keys. -/
def weekKeyLe (a b : ℤ × ℤ) : Bool :=
  if a.1 < b.1 then true
  else if b.1 < a.1 then false
  else decide (a.2 ≤ b.2)

/-- Embeds `_aggregate_to_daily` (aggregator.py lines 271-298): group the 1-minute
bars by calendar date, sort the groups by date, combine each group. -/
def aggregate_to_daily (bars_1m : List Bar) : List Bar :=
  let daily_groups := groupByKey (fun bar => dateOf bar.time) bars_1m
  (sortGroups dateLe daily_groups).filterMap (fun g => aggregate_bars g.2)

/-- Embeds `_aggregate_to_weekly` (aggregator.py lines 301-331): group daily bars by
`(calendar year, iso week)`, sort the groups, combine each group. -/
def aggregate_to_weekly (daily_bars : List Bar) : List Bar :=
  let weekly_groups := groupByKey (fun bar => (yearOf bar.time, isoWeekOf bar.time)) daily_bars
  (sortGroups weekKeyLe weekly_groups).filterMap (fun g => aggregate_bars g.2)

/-- The chunking loop of `aggregate_historical_1m_to_timeframe` (lines
252-265): walk the list in strides of `bars_needed`, combining every chunk of
exactly `bars_needed` bars and discarding the trailing partial chunk. -/
def chunkCombine (n : Nat) (l : List Bar) : List Bar :=
  if _h : 0 < n ∧ n ≤ l.length then
    (aggregate_bars (l.take n)).toList ++ chunkCombine n (l.drop n)
  else []
termination_by l.length
decreasing_by
  simp only [List.length_drop]
  omega

/-- Embeds `aggregate_historical_1m_to_timeframe` (aggregator.py lines 217-268):
pass `1m` through; reject the variable-length `1M`; route
`bars_needed == 5` — which holds for target `1W` *and* for target `5m` —
through daily-then-weekly grouping; chunk-combine everything else.  The
unknown-timeframe `ValueError` is unrepresentable here because `Timeframe`
enumerates exactly the table's keys. -/
def aggregate_historical_1m_to_timeframe (bars_1m : List Bar) (target : Timeframe) :
    Except String (List Bar) :=
  if target = .t1m then .ok bars_1m
  else
    match barsInPeriod target with
    | none => .error "Cannot aggregate (variable bars)"
    | some bars_needed =>
      if bars_needed = 5 then
        .ok (aggregate_to_weekly (aggregate_to_daily bars_1m))
      else
        .ok (chunkCombine bars_needed bars_1m)

/-- Twelve consecutive 1-minute bars inside the 2024-02-01 UTC trading day. -/
def bars12 : List Bar :=
  (List.range 12).map (fun i =>
    ⟨1706745600 + 60 * (i : ℤ), (i : ℚ), (i : ℚ) + 1, (i : ℚ) - 1, (i : ℚ), 10⟩)

/-- C3 (failing-input evaluation): aggregating the twelve one-minute bars of
`bars12` to `5m` through the historical batch path yields exactly ONE output
bar — the `bars_needed == 5` test routes target `5m` through the
daily-then-weekly grouping, because `5m` and `1W` share the bar count 5 —
whereas the claimed chunking behaviour would yield two bars. -/
theorem C3_historical_5m_routed_to_weekly :
    ∃ w, aggregate_historical_1m_to_timeframe bars12 .t5m = .ok [w] :=
  ⟨_, rfl⟩

/-!
Rate limiter (`rate_limiter.py`).
-/

/-- Constructor parameters of `RateLimiter.__init__`. -/
structure RateLimiter where
  rate_limit : ℚ
  period : ℚ
deriving DecidableEq, Repr

/-- Mutable state of a `RateLimiter`: `self.tokens` and `self.last_update`. -/
structure RLState where
  tokens : ℚ
  last_update : ℚ
deriving DecidableEq, Repr

/-- Embeds `RateLimiter.wait_if_needed` (rate_limiter.py lines 46-81).  `now` is the
`time.time()` read on entry and `now2` the one read after the sleep; the
returned second component is `some waitTime` when the call slept for
`waitTime` seconds (the waiting branch) and `none` when it was admitted
immediately. -/
def wait_if_needed (rl : RateLimiter) (s : RLState) (now now2 : ℚ) :
    RLState × Option ℚ :=
  let elapsed := now - s.last_update
  let tokens_to_add := elapsed * (rl.rate_limit / rl.period)
  let tokens := min rl.rate_limit (s.tokens + tokens_to_add)
  if tokens < 1 then
    let wait_time := 1 / rl.rate_limit * rl.period
    ({ tokens := rl.rate_limit - 1, last_update := now2 }, some wait_time)
  else
    ({ tokens := tokens - 1, last_update := now }, none)

/-- Embeds `RateLimiter.get_available_tokens` (rate_limiter.py lines 83-97): the
refilled token count, capped at capacity, without mutation. -/
def get_available_tokens (rl : RateLimiter) (s : RLState) (now : ℚ) : ℚ :=
  min rl.rate_limit (s.tokens + (now - s.last_update) * (rl.rate_limit / rl.period))

/-- Embeds `RateLimiter(25, 60)`. -/
def rl25_60 : RateLimiter := ⟨25, 60⟩

/-- State after construction at time 0: full bucket. -/
def rlInit : RLState := ⟨25, 0⟩

/-- State after `k` consecutive `wait_if_needed` calls issued with no time
elapsing (every clock read returns the construction instant 0). -/
def acqIter : Nat → RLState
  | 0 => rlInit
  | k + 1 => (wait_if_needed rl25_60 (acqIter k) 0 0).1

theorem wait_if_needed_no_wait (q : ℚ) (h1 : 1 ≤ q) (h2 : q ≤ 25) :
    wait_if_needed rl25_60 ⟨q, 0⟩ 0 0 = (⟨q - 1, 0⟩, none) := by
  unfold wait_if_needed rl25_60
  have hmin : min (25 : ℚ) (q + (0 - 0) * (25 / 60)) = q := by
    rw [show q + (0 - 0) * ((25 : ℚ) / 60) = q by ring]
    exact min_eq_right h2
  simp only [hmin]
  rw [if_neg (by linarith)]

theorem acqIter_tokens (k : Nat) (hk : k ≤ 25) : acqIter k = ⟨25 - (k : ℚ), 0⟩ := by
  induction k with
  | zero => simp [acqIter, rlInit]
  | succ n ih =>
    have hn : n ≤ 25 := by omega
    have hc : (n : ℚ) ≤ 24 := by exact_mod_cast (by omega : n ≤ 24)
    have hnn : (0 : ℚ) ≤ (n : ℚ) := Nat.cast_nonneg n
    rw [acqIter, ih hn,
      wait_if_needed_no_wait (25 - (n : ℚ)) (by linarith) (by linarith)]
    dsimp only
    have he : (25 : ℚ) - (n : ℚ) - 1 = 25 - ((n + 1 : ℕ) : ℚ) := by push_cast; ring
    rw [he]

/-- C6: for `RateLimiter(25, 60)` with no time elapsing, each of the first 25
acquisitions takes the non-waiting branch; the 26th takes the waiting branch,
sleeping `60/25` seconds, after which the bucket is reset to full capacity
and then decremented by one; and after any acquire, and for any peek, the
available-token count never exceeds capacity. -/
theorem C6_rate_limiter_burst_then_wait (k : Nat) (hk : k < 25) :
    (wait_if_needed rl25_60 (acqIter k) 0 0).2 = none ∧
    (wait_if_needed rl25_60 (acqIter 25) 0 0).2 = some (60 / 25) ∧
    (wait_if_needed rl25_60 (acqIter 25) 0 0).1.tokens = 25 - 1 ∧
    (∀ (rl : RateLimiter) (s : RLState) (now now2 : ℚ),
      (wait_if_needed rl s now now2).1.tokens ≤ rl.rate_limit) ∧
    (∀ (rl : RateLimiter) (s : RLState) (now : ℚ),
      get_available_tokens rl s now ≤ rl.rate_limit) := by
  refine ⟨?_, ?_, ?_, ?_, ?_⟩
  · have hc : (k : ℚ) ≤ 24 := by exact_mod_cast (by omega : k ≤ 24)
    have hnn : (0 : ℚ) ≤ (k : ℚ) := Nat.cast_nonneg k
    rw [acqIter_tokens k (by omega), wait_if_needed_no_wait _ (by linarith) (by linarith)]
  · rw [acqIter_tokens 25 le_rfl]
    unfold wait_if_needed rl25_60
    norm_num
  · rw [acqIter_tokens 25 le_rfl]
    unfold wait_if_needed rl25_60
    norm_num
  · intro rl s now now2
    unfold wait_if_needed
    dsimp only
    split
    · dsimp only
      linarith
    · dsimp only
      have hm := min_le_left rl.rate_limit
        (s.tokens + (now - s.last_update) * (rl.rate_limit / rl.period))
      linarith
  · intro rl s now
    exact min_le_left _ _

/-- Witness for C6 at `k = 3` (the fourth instantaneous acquisition). -/
theorem C6_rate_limiter_burst_then_wait_witness :
    3 < 25 ∧
    ((wait_if_needed rl25_60 (acqIter 3) 0 0).2 = none ∧
    (wait_if_needed rl25_60 (acqIter 25) 0 0).2 = some (60 / 25) ∧
    (wait_if_needed rl25_60 (acqIter 25) 0 0).1.tokens = 25 - 1 ∧
    (∀ (rl : RateLimiter) (s : RLState) (now now2 : ℚ),
      (wait_if_needed rl s now now2).1.tokens ≤ rl.rate_limit) ∧
    (∀ (rl : RateLimiter) (s : RLState) (now : ℚ),
      get_available_tokens rl s now ≤ rl.rate_limit)) :=
  ⟨by decide, C6_rate_limiter_burst_then_wait 3 (by decide)⟩

/-!
Data cache (`cache.py`).
-/

/-- Embeds `DataCache` state: the `(symbol, timeframe) → bars` dict (as an ordered
association list) and the two counters. -/
structure DataCache where
  cache : List ((String × String) × List Bar)
  cache_hits : Nat
  cache_misses : Nat

/-- The cache as constructed by `DataCache.__init__`. -/
def initCache : DataCache := ⟨[], 0, 0⟩

/-- Dict membership/lookup `self._cache[key]`. -/
def lookupKey : List ((String × String) × List Bar) → String × String → Option (List Bar)
  | [], _ => none
  | (k, v) :: rest, key => if k = key then some v else lookupKey rest key

/-- Dict assignment `self._cache[key] = bars`: overwrite in place or append a
fresh key. -/
def setAssoc : List ((String × String) × List Bar) → String × String → List Bar →
    List ((String × String) × List Bar)
  | [], key, v => [(key, v)]
  | (k, w) :: rest, key, v =>
    if k = key then (k, v) :: rest else (k, w) :: setAssoc rest key v

/-- Embeds `DataCache.get` (cache.py lines 74-95): on a present key return the
stored series and bump the hit counter, else return `None` and bump the miss
counter. -/
def DataCache.get (c : DataCache) (symbol timeframe : String) :
    Option (List Bar) × DataCache :=
  match lookupKey c.cache (symbol, timeframe) with
  | some bars => (some bars, { c with cache_hits := c.cache_hits + 1 })
  | none => (none, { c with cache_misses := c.cache_misses + 1 })

/-- Embeds `DataCache.set` (cache.py lines 97-110). -/
def DataCache.set (c : DataCache) (symbol timeframe : String) (bars : List Bar) :
    DataCache :=
  { c with cache := setAssoc c.cache (symbol, timeframe) bars }

/-- Embeds `DataCache.clear` (cache.py lines 127-131): empties the store, keeping
the counters. -/
def DataCache.clear (c : DataCache) : DataCache := { c with cache := [] }

/-- Python `round(x, 2)` under the exact-rational reading of floats: round
half to even at the second decimal. -/
def roundTo2 (q : ℚ) : ℚ :=
  let f : ℤ := ⌊q * 100⌋
  let r := q * 100 - f
  (if r < 1 / 2 then (f : ℚ)
   else if 1 / 2 < r then (f : ℚ) + 1
   else if f % 2 = 0 then (f : ℚ) else (f : ℚ) + 1) / 100

/-- The dict returned by `DataCache.get_stats` (cache.py lines 133-149). -/
structure CacheStats where
  cache_hits : Nat
  cache_misses : Nat
  total_keys : Nat
  hit_rate_percent : ℚ

/-- Embeds `DataCache.get_stats`: `hit_rate = hits/total*100` when any request has
been made, else `0`, reported rounded to two decimals. -/
def DataCache.get_stats (c : DataCache) : CacheStats :=
  let total_requests := c.cache_hits + c.cache_misses
  let hit_rate : ℚ :=
    if 0 < total_requests then (c.cache_hits : ℚ) / (total_requests : ℚ) * 100 else 0
  ⟨c.cache_hits, c.cache_misses, c.cache.length, roundTo2 hit_rate⟩

theorem lookupKey_setAssoc (m : List ((String × String) × List Bar))
    (key : String × String) (v : List Bar) :
    lookupKey (setAssoc m key v) key = some v := by
  induction m with
  | nil => simp [setAssoc, lookupKey]
  | cons kv rest ih =>
    obtain ⟨k, w⟩ := kv
    by_cases hk : k = key
    · simp [setAssoc, lookupKey, hk]
    · simp only [setAssoc, lookupKey, hk, if_neg, ite_false]
      exact ih

/-- C7 counterexample: with one hit and two misses the reported
`hit_rate_percent` is `33.33`, not the exact `1/(1+2)*100 = 100/3` the claim
states — `get_stats` rounds to two decimals. -/
theorem C7_counterexample_hit_rate_rounding :
    (DataCache.get_stats ⟨[], 1, 2⟩).hit_rate_percent ≠ (1 : ℚ) / (1 + 2) * 100 := by
  unfold DataCache.get_stats
  dsimp only
  rw [if_pos (by norm_num)]
  unfold roundTo2
  dsimp only
  rw [show ((((1 : ℕ) : ℚ)) / (((1 + 2 : ℕ) : ℚ)) * 100 * 100) = 10000 / 3 by push_cast; ring]
  rw [show ⌊(10000 : ℚ) / 3⌋ = 3333 by
    rw [Int.floor_eq_iff]
    constructor <;> norm_num]
  norm_num

/-- C7 (amended): a `set` followed by `get` on the same key returns exactly
the stored series and bumps only the hit counter; a `get` on an absent key
(never set, or after `clear`) returns an absent result and bumps only the
miss counter; `stats` reports `hits/(hits+misses)*100` rounded to two
decimals, and `0` when no request has been made. -/
theorem C7_cache_roundtrip_and_stats (c : DataCache) (symbol timeframe : String)
    (bars : List Bar)
    (habsent : lookupKey c.cache (symbol, timeframe) = none) :
    (((c.set symbol timeframe bars).get symbol timeframe).1 = some bars ∧
     ((c.set symbol timeframe bars).get symbol timeframe).2.cache_hits = c.cache_hits + 1 ∧
     ((c.set symbol timeframe bars).get symbol timeframe).2.cache_misses = c.cache_misses) ∧
    ((c.get symbol timeframe).1 = none ∧
     (c.get symbol timeframe).2.cache_misses = c.cache_misses + 1 ∧
     (c.get symbol timeframe).2.cache_hits = c.cache_hits) ∧
    (((c.clear).get symbol timeframe).1 = none ∧
     ((c.clear).get symbol timeframe).2.cache_misses = c.cache_misses + 1) ∧
    ((c.get_stats).hit_rate_percent =
      roundTo2 (if 0 < c.cache_hits + c.cache_misses
                then (c.cache_hits : ℚ) / ((c.cache_hits + c.cache_misses : ℕ) : ℚ) * 100
                else 0) ∧
     (c.cache_hits + c.cache_misses = 0 → (c.get_stats).hit_rate_percent = 0)) := by
  refine ⟨?_, ?_, ?_, rfl, ?_⟩
  · have h1 := lookupKey_setAssoc c.cache (symbol, timeframe) bars
    simp only [DataCache.get, DataCache.set, h1]
    simp
  · simp only [DataCache.get, habsent]
    simp
  · simp only [DataCache.get, DataCache.clear, lookupKey]
    simp
  · intro h0
    unfold DataCache.get_stats
    dsimp only
    rw [if_neg (by omega)]
    unfold roundTo2
    norm_num

/-- Witness for C7 on the freshly constructed cache and key
`("CME_MINI:MNQ1!", "5m")`. -/
theorem C7_cache_roundtrip_and_stats_witness :
    lookupKey initCache.cache ("CME_MINI:MNQ1!", "5m") = none ∧
    ((((initCache.set "CME_MINI:MNQ1!" "5m" [dFeb1]).get "CME_MINI:MNQ1!" "5m").1 = some [dFeb1] ∧
     ((initCache.set "CME_MINI:MNQ1!" "5m" [dFeb1]).get "CME_MINI:MNQ1!" "5m").2.cache_hits = initCache.cache_hits + 1 ∧
     ((initCache.set "CME_MINI:MNQ1!" "5m" [dFeb1]).get "CME_MINI:MNQ1!" "5m").2.cache_misses = initCache.cache_misses) ∧
    ((initCache.get "CME_MINI:MNQ1!" "5m").1 = none ∧
     (initCache.get "CME_MINI:MNQ1!" "5m").2.cache_misses = initCache.cache_misses + 1 ∧
     (initCache.get "CME_MINI:MNQ1!" "5m").2.cache_hits = initCache.cache_hits) ∧
    (((initCache.clear).get "CME_MINI:MNQ1!" "5m").1 = none ∧
     ((initCache.clear).get "CME_MINI:MNQ1!" "5m").2.cache_misses = initCache.cache_misses + 1) ∧
    ((initCache.get_stats).hit_rate_percent =
      roundTo2 (if 0 < initCache.cache_hits + initCache.cache_misses
                then (initCache.cache_hits : ℚ) /
                  ((initCache.cache_hits + initCache.cache_misses : ℕ) : ℚ) * 100
                else 0) ∧
     (initCache.cache_hits + initCache.cache_misses = 0 →
       (initCache.get_stats).hit_rate_percent = 0))) :=
  ⟨rfl, C7_cache_roundtrip_and_stats initCache "CME_MINI:MNQ1!" "5m" [dFeb1] rfl⟩

/-!
Ingestion client (`websocket_client.py`).
-/

/-- Outcome of one iteration of the `connect` loop body, as observed by its
exception handlers: the connection call itself raising `ConnectionClosed`, an
established session later raising `ConnectionClosed`, the message loop
returning normally, or any other exception. -/
inductive ConnOutcome
  | connectClosed
  | sessionClosed
  | sessionEnded
  | otherError
deriving DecidableEq, Repr

/-- Reconnection-relevant client state: `self.reconnect_attempts`,
`self.is_connected`, and whether the loop was left through the generic
exception handler's `break`. -/
structure WSConn where
  reconnect_attempts : Nat
  is_connected : Bool
  broke : Bool
deriving DecidableEq, Repr

/-- The client as constructed: zero attempts, disconnected. -/
def wsInit : WSConn := ⟨0, false, false⟩

/-- One iteration of the `while` loop of `connect` (websocket_client.py lines
76-104), driven by outcome `e`.  Returns the new state, whether a connection
attempt was made this iteration, and the back-off sleep performed (if any).
When the guard `reconnect_attempts < max_attempts` fails, or the loop was
already exited by `break`, no attempt is made and the state is unchanged.  A
successful connection resets `reconnect_attempts` to 0 before the handlers
run. -/
def connectStep (maxAttempts : Nat) (baseDelay : ℚ) (s : WSConn) (e : ConnOutcome) :
    WSConn × Bool × Option ℚ :=
  if s.broke ∨ ¬ s.reconnect_attempts < maxAttempts then (s, false, none)
  else
    match e with
    | .connectClosed =>
      let a := s.reconnect_attempts + 1
      if a < maxAttempts then
        (⟨a, false, false⟩, true, some (baseDelay * 2 ^ (a - 1)))
      else
        (⟨a, false, false⟩, true, none)
    | .sessionClosed =>
      if 0 + 1 < maxAttempts then
        (⟨1, false, false⟩, true, some (baseDelay * 2 ^ (1 - 1)))
      else
        (⟨1, false, false⟩, true, none)
    | .sessionEnded => (⟨0, true, false⟩, true, none)
    | .otherError => (⟨s.reconnect_attempts, false, true⟩, true, none)

/-- Run the connect loop over a sequence of iteration outcomes, counting the
connection attempts made. -/
def connectRun (maxAttempts : Nat) (baseDelay : ℚ) (s : WSConn) :
    List ConnOutcome → WSConn × Nat
  | [] => (s, 0)
  | e :: es =>
    let st := connectStep maxAttempts baseDelay s e
    let rest := connectRun maxAttempts baseDelay st.1 es
    (rest.1, (if st.2.1 then 1 else 0) + rest.2)

theorem connectRun_stopped (maxAttempts : Nat) (baseDelay : ℚ) (s : WSConn)
    (es : List ConnOutcome) (h : s.broke = true ∨ ¬ s.reconnect_attempts < maxAttempts) :
    connectRun maxAttempts baseDelay s es = (s, 0) := by
  induction es with
  | nil => rfl
  | cons e es ih =>
    have hstep : connectStep maxAttempts baseDelay s e = (s, false, none) := by
      unfold connectStep
      rw [if_pos h]
    simp only [connectRun, hstep, ih]
    simp

/-- C8: with `max_reconnect_attempts = 5` and `base_reconnect_delay = 1`,
five consecutive connection failures (connection-closed outcomes with no
intervening success) exhaust the retry budget: exactly five attempts are
made, the client ends disconnected, and no further outcome ever produces
another attempt.  Before exhaustion each reconnection after a transport-level
closure sleeps `baseDelay * 2^(attempts-1)` seconds, and a successful
connection resets the attempt counter to 0 (so a closure after a successful
session leaves it at 1). -/
theorem C8_reconnect_backoff_and_exhaustion (c : Bool) (rest : List ConnOutcome)
    (s : WSConn) (hb : s.broke = false) (hg : s.reconnect_attempts < 5)
    (hlt : s.reconnect_attempts + 1 < 5) :
    (connectRun 5 1 ⟨0, c, false⟩ (List.replicate 5 .connectClosed ++ rest) =
      (⟨5, false, false⟩, 5)) ∧
    ((connectStep 5 1 s .connectClosed).2.2 =
      some (1 * 2 ^ (s.reconnect_attempts + 1 - 1))) ∧
    ((connectStep 5 1 s .sessionEnded).1.reconnect_attempts = 0 ∧
     (connectStep 5 1 s .sessionEnded).1.is_connected = true) ∧
    ((connectStep 5 1 s .sessionClosed).1.reconnect_attempts = 1) := by
  refine ⟨?_, ?_, ?_, ?_⟩
  · have hrepl : List.replicate 5 ConnOutcome.connectClosed =
        [.connectClosed, .connectClosed, .connectClosed, .connectClosed, .connectClosed] := rfl
    rw [hrepl]
    simp only [List.cons_append, List.nil_append, connectRun, connectStep]
    norm_num
    rw [connectRun_stopped 5 1 ⟨5, false, false⟩ rest (by norm_num)]
    norm_num
  · unfold connectStep
    rw [if_neg (by simp [hb, hg]), if_pos hlt]
  · unfold connectStep
    rw [if_neg (by simp [hb, hg])]
    exact ⟨rfl, rfl⟩
  · unfold connectStep
    rw [if_neg (by simp [hb, hg])]
    norm_num

/-- Witness for C8 at the state reached after one failed reconnection. -/
theorem C8_reconnect_backoff_and_exhaustion_witness :
    (⟨1, false, false⟩ : WSConn).broke = false ∧
    (⟨1, false, false⟩ : WSConn).reconnect_attempts < 5 ∧
    (⟨1, false, false⟩ : WSConn).reconnect_attempts + 1 < 5 ∧
    ((connectRun 5 1 ⟨0, false, false⟩
        (List.replicate 5 .connectClosed ++ [.sessionEnded, .connectClosed]) =
      (⟨5, false, false⟩, 5)) ∧
    ((connectStep 5 1 ⟨1, false, false⟩ .connectClosed).2.2 =
      some (1 * 2 ^ ((⟨1, false, false⟩ : WSConn).reconnect_attempts + 1 - 1))) ∧
    ((connectStep 5 1 ⟨1, false, false⟩ .sessionEnded).1.reconnect_attempts = 0 ∧
     (connectStep 5 1 ⟨1, false, false⟩ .sessionEnded).1.is_connected = true) ∧
    ((connectStep 5 1 ⟨1, false, false⟩ .sessionClosed).1.reconnect_attempts = 1)) :=
  ⟨rfl, by decide, by decide,
    C8_reconnect_backoff_and_exhaustion false [.sessionEnded, .connectClosed]
      ⟨1, false, false⟩ rfl (by decide) (by decide)⟩

/-- Client state relevant to `switch_symbol`: the tracked symbol, the
connection flag, whether `self.websocket` is set, and the aggregation
engine's state. -/
structure WSClient where
  symbol : String
  is_connected : Bool
  has_websocket : Bool
  aggregator : AggState
deriving DecidableEq, Repr

/-- Messages sent over the upstream socket by `switch_symbol`. -/
inductive WSDirective
  | unsubscribe (symbol : String)
  | subscribe (symbol : String)
deriving DecidableEq, Repr

/-- Embeds `InsightSentryWebSocketClient.switch_symbol` (websocket_client.py lines
232-266): raise when not connected (or the socket object is missing), no-op
when the new symbol equals the tracked one, otherwise unsubscribe the old
symbol, retarget, subscribe the new one and replace the aggregation engine
with a fresh instance.  The raised `RuntimeError` is modelled as `.error`;
the returned list records the directives sent, in order. -/
def switch_symbol (c : WSClient) (new_symbol : String) :
    Except String (WSClient × List WSDirective) :=
  if ¬ c.is_connected ∨ ¬ c.has_websocket then .error "WebSocket not connected"
  else if new_symbol = c.symbol then .ok (c, [])
  else .ok ({ c with symbol := new_symbol, aggregator := initAgg },
            [.unsubscribe c.symbol, .subscribe new_symbol])

/-- C9: under the client invariant that a connected client always holds a
socket object, `switch_symbol` errors (sending nothing and changing nothing —
the error is raised before any mutation) precisely when the client is not
connected; when connected and the symbol is unchanged it is a no-op; and when
connected with a new symbol it unsubscribes the old symbol, retargets,
subscribes the new one and replaces the aggregation engine with a fresh empty
instance, discarding all window and daily-bar state. -/
theorem C9_switch_symbol_cases (c : WSClient) (new_symbol : String)
    (hinv : c.is_connected = true → c.has_websocket = true) :
    ((∃ msg, switch_symbol c new_symbol = .error msg) ↔ c.is_connected = false) ∧
    (c.is_connected = true → new_symbol = c.symbol →
      switch_symbol c new_symbol = .ok (c, [])) ∧
    (c.is_connected = true → new_symbol ≠ c.symbol →
      switch_symbol c new_symbol =
        .ok ({ c with symbol := new_symbol, aggregator := initAgg },
             [.unsubscribe c.symbol, .subscribe new_symbol])) := by
  refine ⟨?_, ?_, ?_⟩
  · constructor
    · intro ⟨msg, hmsg⟩
      by_contra hcon
      have hc : c.is_connected = true := by
        cases h : c.is_connected
        · exact absurd h hcon
        · rfl
      have hw : c.has_websocket = true := hinv hc
      unfold switch_symbol at hmsg
      rw [if_neg (by simp [hc, hw])] at hmsg
      by_cases hsym : new_symbol = c.symbol
      · rw [if_pos hsym] at hmsg
        cases hmsg
      · rw [if_neg hsym] at hmsg
        cases hmsg
    · intro hc
      refine ⟨"WebSocket not connected", ?_⟩
      unfold switch_symbol
      rw [if_pos (Or.inl (by simp [hc]))]
  · intro hc hsym
    unfold switch_symbol
    rw [if_neg (by simp [hc, hinv hc]), if_pos hsym]
  · intro hc hsym
    unfold switch_symbol
    rw [if_neg (by simp [hc, hinv hc]), if_neg hsym]

/-- Witness for C9: a connected client tracking `CME_MINI:MNQ1!` switched to
`CME_MINI:MES1!`. -/
theorem C9_switch_symbol_cases_witness :
    ((⟨"CME_MINI:MNQ1!", true, true, initAgg⟩ : WSClient).is_connected = true →
      (⟨"CME_MINI:MNQ1!", true, true, initAgg⟩ : WSClient).has_websocket = true) ∧
    (((∃ msg, switch_symbol ⟨"CME_MINI:MNQ1!", true, true, initAgg⟩ "CME_MINI:MES1!" = .error msg) ↔
      (⟨"CME_MINI:MNQ1!", true, true, initAgg⟩ : WSClient).is_connected = false) ∧
    ((⟨"CME_MINI:MNQ1!", true, true, initAgg⟩ : WSClient).is_connected = true →
      "CME_MINI:MES1!" = (⟨"CME_MINI:MNQ1!", true, true, initAgg⟩ : WSClient).symbol →
      switch_symbol ⟨"CME_MINI:MNQ1!", true, true, initAgg⟩ "CME_MINI:MES1!" =
        .ok (⟨"CME_MINI:MNQ1!", true, true, initAgg⟩, [])) ∧
    ((⟨"CME_MINI:MNQ1!", true, true, initAgg⟩ : WSClient).is_connected = true →
      "CME_MINI:MES1!" ≠ (⟨"CME_MINI:MNQ1!", true, true, initAgg⟩ : WSClient).symbol →
      switch_symbol ⟨"CME_MINI:MNQ1!", true, true, initAgg⟩ "CME_MINI:MES1!" =
        .ok ({ (⟨"CME_MINI:MNQ1!", true, true, initAgg⟩ : WSClient) with
                symbol := "CME_MINI:MES1!", aggregator := initAgg },
             [.unsubscribe "CME_MINI:MNQ1!", .subscribe "CME_MINI:MES1!"]))) :=
  ⟨fun _ => rfl,
    C9_switch_symbol_cases ⟨"CME_MINI:MNQ1!", true, true, initAgg⟩ "CME_MINI:MES1!"
      (fun _ => rfl)⟩
